import Mathlib

/-!
Verification development for the NewsScraper article pipeline:
collection → deduplication → insurer matching.

The definitions below are a shallow embedding of the Python services
`app/services/insurer_matcher.py`, `app/services/batch_processor.py` and
the pipeline glue in `app/routers/runs.py`.  Python strings become Lean
`String`, dicts of fixed shape become structures, `None`-able values become
`Option`, float confidence literals become exact rationals, and code that
may raise becomes `Except String`.
-/

set_option autoImplicit false

namespace NewsScraper

/-! ## Text normalization (`InsurerMatcher._normalize_text`)

The Python code applies `unicodedata.normalize('NFKD', text)`, drops
combining characters, lowercases, and strips surrounding whitespace.  The
embedding below implements NFKD decomposition and the combining-mark test
for the Latin repertoire that Brazilian-Portuguese insurer names and news
text use (precomposed Latin letters with grave, acute, circumflex, tilde,
diaeresis and cedilla); every other character decomposes to itself. -/

/-- Combining-mark test: `unicodedata.combining(c) != 0` for the combining
diacritical marks block U+0300–U+036F, which is the block NFKD produces for
the Latin letters handled by `nfkdChar`. -/
def isCombining (c : Char) : Bool :=
  0x300 ≤ c.toNat && c.toNat ≤ 0x36F

/-- NFKD decomposition of one character, restricted to the precomposed
Latin letters relevant to the repository (Portuguese accents).  Each maps
to its base letter followed by a combining mark; other characters are
returned unchanged. -/
def nfkdChar (c : Char) : List Char :=
  match c with
  | 'á' => ['a', '́'] | 'à' => ['a', '̀'] | 'â' => ['a', '̂']
  | 'ã' => ['a', '̃'] | 'ä' => ['a', '̈']
  | 'é' => ['e', '́'] | 'è' => ['e', '̀'] | 'ê' => ['e', '̂']
  | 'ë' => ['e', '̈']
  | 'í' => ['i', '́'] | 'ì' => ['i', '̀'] | 'î' => ['i', '̂']
  | 'ï' => ['i', '̈']
  | 'ó' => ['o', '́'] | 'ò' => ['o', '̀'] | 'ô' => ['o', '̂']
  | 'õ' => ['o', '̃'] | 'ö' => ['o', '̈']
  | 'ú' => ['u', '́'] | 'ù' => ['u', '̀'] | 'û' => ['u', '̂']
  | 'ü' => ['u', '̈']
  | 'ç' => ['c', '̧']
  | 'Á' => ['A', '́'] | 'À' => ['A', '̀'] | 'Â' => ['A', '̂']
  | 'Ã' => ['A', '̃'] | 'Ä' => ['A', '̈']
  | 'É' => ['E', '́'] | 'È' => ['E', '̀'] | 'Ê' => ['E', '̂']
  | 'Ë' => ['E', '̈']
  | 'Í' => ['I', '́'] | 'Ì' => ['I', '̀'] | 'Î' => ['I', '̂']
  | 'Ï' => ['I', '̈']
  | 'Ó' => ['O', '́'] | 'Ò' => ['O', '̀'] | 'Ô' => ['O', '̂']
  | 'Õ' => ['O', '̃'] | 'Ö' => ['O', '̈']
  | 'Ú' => ['U', '́'] | 'Ù' => ['U', '̀'] | 'Û' => ['U', '̂']
  | 'Ü' => ['U', '̈']
  | 'Ç' => ['C', '̧']
  | _ => [c]

/-- Whitespace strip of a character list (Python `str.strip`). -/
def stripChars (l : List Char) : List Char :=
  (l.dropWhile Char.isWhitespace).reverse.dropWhile Char.isWhitespace |>.reverse

/-- Embedding of `InsurerMatcher._normalize_text`: NFKD-decompose, drop the
combining marks, lowercase, strip surrounding whitespace; the empty string
is returned unchanged (the `if not text` guard). -/
def normalizeText (s : String) : String :=
  if s = "" then ""
  else
    let decomposed := (s.data.map nfkdChar).flatten
    let withoutAccents := decomposed.filter (fun c => !isCombining c)
    String.mk (stripChars (withoutAccents.map Char.toLower))

/-! ## Word-boundary search (`re.search(rf'\b{re.escape(pat)}\b', content)`)

The pattern is a `re.escape`d literal wrapped in `\b` anchors, so the regex
search reduces to: some position of the text holds the pattern verbatim
with a word boundary on both sides.  A `\b` matches where exactly one of
the two surrounding positions holds a word character (`[a-zA-Z0-9_]` for
the post-normalization text in play), the edge of the string counting as a
non-word position. -/

/-- Word-character test for the `\b` anchor. -/
def isWordChar (c : Char) : Bool :=
  c.isAlphanum || c = '_'

/-- Word-character test lifted to an optional character, the string edge
(`none`) counting as non-word. -/
def optIsWord (c : Option Char) : Bool :=
  match c with
  | some c => isWordChar c
  | none => false

/-- Boundary (`\b`) between two adjacent positions: exactly one side is a
word character. -/
def boundaryBetween (a b : Option Char) : Bool :=
  optIsWord a != optIsWord b

/-- The escaped pattern occurs at offset `i` of `text` with `\b` satisfied
at both ends. -/
def occursBoundedAt (pat text : List Char) (i : Nat) : Bool :=
  decide ((text.drop i).take pat.length = pat)
    && boundaryBetween (if i = 0 then none else text.get? (i - 1)) pat.head?
    && boundaryBetween pat.getLast? (text.get? (i + pat.length))

/-- Embedding of `re.search(rf'\b{re.escape(pat)}\b', text)` viewed as a
Boolean: some offset of `text` carries a word-bounded occurrence of the
literal pattern.  An empty pattern never arises in the matcher (patterns
have length ≥ 4). -/
def searchWordBounded (pat text : String) : Bool :=
  !pat.data.isEmpty && (List.range (text.data.length + 1)).any
    (occursBoundedAt pat.data text.data)

/-! ## Data model -/

/-- Pipeline article, the dict shape consumed by the matcher and the
Factiva pipeline in `app/routers/runs.py` (`title`, `description`,
`source_url` read with `.get(..., "")`). -/
structure FArticle where
  title : String
  description : String
  source_url : String
  deriving DecidableEq, Repr, Inhabited

/-- Insurer row (`app.models.insurer.Insurer`), restricted to the fields
the pipeline reads: `id`, `name`, `ans_code` and the optional
comma-separated `search_terms`. -/
structure Insurer where
  id : Nat
  name : String
  ans_code : String
  search_terms : Option String
  deriving DecidableEq, Repr, Inhabited

/-- Embedding of `app.schemas.matching.MatchResult` as constructed by
`InsurerMatcher.match_article`: matched insurer ids, a confidence (the
float literals 0.95 / 0.85 / 0.0 become exact rationals), a method tag and
a reasoning string. -/
structure MatchResult where
  insurer_ids : List Nat
  confidence : ℚ
  method : String
  reasoning : String
  deriving DecidableEq, Repr

instance : Inhabited MatchResult :=
  ⟨⟨[], 0, "unmatched", ""⟩⟩

/-! ## Deterministic matching (`InsurerMatcher._deterministic_match`) -/

/-- Python `str.split(sep)` for a one-character separator, over character
lists: `"".split(sep)` is `[""]`, consecutive separators produce empty
fields. -/
def splitChar (sep : Char) : List Char → List (List Char)
  | [] => [[]]
  | c :: rest =>
    let r := splitChar sep rest
    if c = sep then [] :: r
    else
      match r with
      | g :: gs => (c :: g) :: gs
      | [] => [[c]]

/-- Python `str.strip()` lifted to `String`. -/
def pyStrip (s : String) : String :=
  String.mk (stripChars s.data)

/-- Comma-splitting of `search_terms`: `[term.strip() for term in
s.split(',') if term.strip()]`. -/
def splitSearchTerms (s : String) : List String :=
  (((splitChar ',' s.data).map (fun g => String.mk (stripChars g))).filter
    (fun t => t ≠ ""))

/-- Per-insurer body of the `_deterministic_match` loop.  When the
normalized name is shorter than 4 characters the loop `continue`s to the
next insurer — the search terms are not consulted in that case.  Otherwise
a word-bounded occurrence of the name matches, and failing that each long
enough normalized search term is tried in order. -/
def insurerMatches (content : String) (ins : Insurer) : Bool :=
  let nameN := normalizeText ins.name
  if nameN.length < 4 then false
  else if searchWordBounded nameN content then true
  else
    let ts := ins.search_terms.getD ""
    if ts ≠ "" then
      (splitSearchTerms ts).any (fun term =>
        let termN := normalizeText term
        decide (4 ≤ termN.length) && searchWordBounded termN content)
    else false

/-- Embedding of `InsurerMatcher._deterministic_match`: normalize
`f"{title} {description}"`, return `[]` on empty content, otherwise
collect (in input order, at most once per insurer) the ids of the insurers
the content matches. -/
def deterministicMatch (article : FArticle) (insurers : List Insurer) :
    List Nat :=
  let content := normalizeText (article.title ++ " " ++ article.description)
  if content = "" then []
  else (insurers.filter (insurerMatches content)).map Insurer.id

/-! ## Tiered decision (`InsurerMatcher.match_article`)

The AI disambiguation path (`AIInsurerMatcher.ai_match`, consulted only
when `self.ai_enabled`) is abstracted as a function parameter: the claims
below concern the `ai_enabled = false` mode or hold for any AI result
satisfying the stated contract. -/

/-- Embedding of `InsurerMatcher.match_article`.  `aiEnabled` mirrors
`self.ai_enabled`, `aiMatch` abstracts `self.ai_matcher.ai_match`.  The
name used in the single-match reasoning is the first insurer carrying the
matched id (Python `next(i for i in insurers if i.id == matched_ids[0])`,
which cannot fail there; the `getD` default is unreachable). -/
def matchArticle (aiEnabled : Bool)
    (aiMatch : FArticle → List Insurer → MatchResult)
    (article : FArticle) (insurers : List Insurer) : MatchResult :=
  let matchedIds := deterministicMatch article insurers
  let matchCount := matchedIds.length
  if matchCount = 1 then
    let name :=
      ((insurers.find? (fun i => i.id = matchedIds.headD 0)).map
        Insurer.name).getD ""
    { insurer_ids := matchedIds
      confidence := 95 / 100
      method := "deterministic_single"
      reasoning := "Exact name match: " ++ name }
  else if 2 ≤ matchCount ∧ matchCount ≤ 3 then
    { insurer_ids := matchedIds
      confidence := 85 / 100
      method := "deterministic_multi"
      reasoning := "Found " ++ toString matchCount ++ " name matches" }
  else if 3 < matchCount then
    if aiEnabled then aiMatch article insurers
    else
      { insurer_ids := []
        confidence := 0
        method := "unmatched"
        reasoning := "Too many matches (" ++ toString matchCount ++
          "), AI disambiguation unavailable" }
  else
    if aiEnabled then aiMatch article insurers
    else
      { insurer_ids := []
        confidence := 0
        method := "unmatched"
        reasoning := "No clear deterministic match, AI unavailable" }

/-! ## Downstream fan-out (`_execute_factiva_pipeline`, runs.py 275–280)

`target_ids = match.insurer_ids if match.insurer_ids else
[general_insurer.id]` followed by `target_ids = target_ids[:3]`. -/

/-- Target insurer ids an article is stored under: the match's ids, the
sentinel when the match is empty, capped at 3. -/
def targetIds (m : MatchResult) (sentinelId : Nat) : List Nat :=
  (if m.insurer_ids.isEmpty then [sentinelId] else m.insurer_ids).take 3

/-! ## Stage-1 exact URL deduplication (`_execute_factiva_pipeline`,
runs.py 222–234)

`seen_urls` starts empty; an article with a non-empty, already seen
`source_url` is skipped, a non-empty fresh URL is recorded, and every
article with an empty URL passes through.  The Python `set` is embedded
as the list of recorded URLs (only membership is used). -/

/-- Loop body of the URL dedup pass with the current `seen_urls`. -/
def dedupURLAux (seen : List String) : List FArticle → List FArticle
  | [] => []
  | a :: rest =>
    let url := a.source_url
    if url ≠ "" ∧ url ∈ seen then dedupURLAux seen rest
    else if url ≠ "" then a :: dedupURLAux (url :: seen) rest
    else a :: dedupURLAux seen rest

/-- Stage-1 exact URL dedup of the Factiva pipeline. -/
def dedupURL (articles : List FArticle) : List FArticle :=
  dedupURLAux [] articles

/-- Declarative restatement of the stage-1 contract, written from the
spec sentence: iterate in original order and keep an article exactly when
its `source_url` is empty or differs from the `source_url` of every
earlier input article.  `prev` accumulates the already traversed input
prefix. -/
def dedupURLSpecAux (prev : List FArticle) : List FArticle → List FArticle
  | [] => []
  | a :: rest =>
    if a.source_url = "" ∨ ∀ p ∈ prev, p.source_url ≠ a.source_url then
      a :: dedupURLSpecAux (prev ++ [a]) rest
    else dedupURLSpecAux (prev ++ [a]) rest

/-- Spec-side stage-1 dedup, to be proved equal to `dedupURL`. -/
def dedupURLSpec (articles : List FArticle) : List FArticle :=
  dedupURLSpecAux [] articles

/-! ## Stage-2 semantic deduplication

Modelled from the spec: the semantic deduplicator
(`app.services.deduplicator.ArticleDeduplicator.deduplicate`, not present
under `src/`) embeds each article, compares with cosine similarity against
a fixed threshold, and keeps only the first representative of each
near-duplicate cluster (greedy first-wins clustering).  The embedding
model and threshold are abstracted into a deterministic similarity
predicate `sim kept candidate`. -/

/-- Greedy first-wins clustering pass: a candidate similar to an already
kept representative is dropped, otherwise it is kept and becomes a
representative. -/
def semanticDedupAux (sim : FArticle → FArticle → Bool)
    (kept : List FArticle) : List FArticle → List FArticle
  | [] => []
  | a :: rest =>
    if kept.any (fun k => sim k a) then semanticDedupAux sim kept rest
    else a :: semanticDedupAux sim (kept ++ [a]) rest

/-- Stage-2 semantic dedup over an abstract similarity predicate. -/
def semanticDedup (sim : FArticle → FArticle → Bool)
    (articles : List FArticle) : List FArticle :=
  semanticDedupAux sim [] articles

/-- Full deduplication pass of the Factiva pipeline (runs.py 222–240):
stage-1 exact URL dedup followed by the semantic stage. -/
def dedupPass (sim : FArticle → FArticle → Bool)
    (articles : List FArticle) : List FArticle :=
  semanticDedup sim (dedupURL articles)

/-! ## Batch processor (`app/services/batch_processor.py`) -/

/-- Embedding of `ScrapedNewsItem` (sources/base.py), the common article
shape returned by every source adapter. -/
structure ScrapedItem where
  title : String
  description : Option String
  url : Option String
  source : Option String
  deriving DecidableEq, Repr, Inhabited

/-- Result of scraping a single insurer (`InsurerResult`). -/
structure InsurerResult where
  insurer_id : Nat
  insurer_name : String
  items : List ScrapedItem
  error : Option String
  deriving DecidableEq, Repr, Inhabited

/-- News source adapter: a name and a `search` call that either returns
items or raises (the raised exception text becoming `Except.error`). -/
structure NewsSrc where
  SOURCE_NAME : String
  search : String → Nat → Except String (List ScrapedItem)

/-- Progress accumulator (`BatchProgress`), without the wall-clock
`start_time`. -/
structure BatchProgress where
  total_insurers : Nat
  processed_insurers : Nat
  total_items_found : Nat
  errors : List String
  deriving DecidableEq, Repr, Inhabited

/-- Search query built by `_scrape_insurer`: the insurer's `search_terms`
when truthy, else `"name" OR "ANS code"`. -/
def buildQuery (ins : Insurer) : String :=
  match ins.search_terms with
  | some ts =>
      if ts ≠ "" then ts
      else "\"" ++ ins.name ++ "\" OR \"ANS " ++ ins.ans_code ++ "\""
  | none => "\"" ++ ins.name ++ "\" OR \"ANS " ++ ins.ans_code ++ "\""

/-- Embedding of `BatchProcessor._scrape_insurer`: every source is tried
in order; a raising source is caught and skipped, a succeeding source
extends `result.items`; `result.error` is never assigned. -/
def scrapeInsurer (sources : List NewsSrc) (maxResults : Nat)
    (ins : Insurer) : InsurerResult :=
  { insurer_id := ins.id
    insurer_name := ins.name
    items := (sources.map (fun s =>
      match s.search (buildQuery ins) maxResults with
      | .ok items => items
      | .error _ => [])).flatten
    error := none }

/-- Embedding of `BatchProcessor._process_batch` after the semaphore
gather: each per-insurer task outcome (`runTask`, abstracting the
possibly-raising `_scrape_insurer` call) is zipped back in input order,
an exception becoming an `InsurerResult` with the error string set. -/
def processBatch (runTask : Insurer → Except String InsurerResult)
    (batch : List Insurer) : List InsurerResult :=
  batch.map (fun ins =>
    match runTask ins with
    | .ok r => r
    | .error e => ⟨ins.id, ins.name, [], some e⟩)

/-- Progress update applied per result inside `process_insurers`
(lines 152–158): increment the processed count, add the item count, and
append `f"{name}: {error}"` when the result carries an error. -/
def updateProgress (p : BatchProgress) (r : InsurerResult) : BatchProgress :=
  { p with
    processed_insurers := p.processed_insurers + 1
    total_items_found := p.total_items_found + r.items.length
    errors := p.errors ++
      (match r.error with
       | some e => [r.insurer_name ++ ": " ++ e]
       | none => []) }

/-- Splitting into consecutive batches of `k`
(`range(0, len(insurers), batch_size)` slicing).  Python raises on a zero
step, so the `k = 0` arm is unreachable in faithful use; it returns the
whole list as one batch so the function stays total. -/
def chunkList {α : Type} (k : Nat) (l : List α) : List (List α) :=
  match k, l with
  | _, [] => []
  | 0, l => [l]
  | Nat.succ k, x :: xs =>
      (x :: xs).take (k + 1) :: chunkList (k + 1) ((x :: xs).drop (k + 1))
termination_by l.length
decreasing_by
  simp only [List.length_drop, List.length_cons]
  omega

/-- Embedding of `BatchProcessor.process_insurers` (database writes,
logging, sleeps and the progress callback elided — none of them feed back
into `BatchProgress`): guard clauses for an empty insurer list and an
empty source list, then per batch every result updates the progress. -/
def processInsurers (batchSize : Nat) (sources : List NewsSrc)
    (runTask : Insurer → Except String InsurerResult)
    (insurers : List Insurer) : BatchProgress :=
  let progress : BatchProgress :=
    ⟨insurers.length, 0, 0, []⟩
  if insurers.isEmpty then progress
  else if sources.isEmpty then
    { progress with errors := ["No news sources configured"] }
  else
    (chunkList batchSize insurers).foldl
      (fun p batch => (processBatch runTask batch).foldl updateProgress p)
      progress

/-! ## Concurrency model of `_process_batch` (lines 186–197)

`asyncio.Semaphore(self.max_concurrent)` gates every scrape:
`process_with_limit` acquires the semaphore before awaiting
`_scrape_insurer` and releases it afterwards.  The cooperative scheduler
is embedded as a transition system over the counts of waiting, running
and finished tasks: a waiting task may start only while fewer than
`maxConcurrent` tasks hold the semaphore, and a running task may finish,
releasing its permit. -/

/-- Scheduler state of one batch: tasks still waiting on the semaphore,
tasks currently scraping (holding a permit), tasks done. -/
structure SemState where
  waiting : Nat
  running : Nat
  done : Nat
  deriving DecidableEq, Repr

/-- Initial state of a batch of `n` gathered tasks: all waiting. -/
def semInit (n : Nat) : SemState :=
  ⟨n, 0, 0⟩

/-- One scheduler step under a semaphore of size `m`: `start` models a
successful semaphore acquisition (possible only while `running < m`),
`finish` models a scrape completing and releasing its permit. -/
inductive SemStep (m : Nat) : SemState → SemState → Prop
  | start (s : SemState) : 0 < s.waiting → s.running < m →
      SemStep m s ⟨s.waiting - 1, s.running + 1, s.done⟩
  | finish (s : SemState) : 0 < s.running →
      SemStep m s ⟨s.waiting, s.running - 1, s.done + 1⟩

/-- States a batch of `n` tasks can reach under a semaphore of size `m`. -/
def SemReachable (m n : Nat) (s : SemState) : Prop :=
  Relation.ReflTransGen (SemStep m) (semInit n) s

/-! ## Relevance response parsing

Modelled from the spec: `RelevanceScorer._parse_relevance_response`
(`app/services/relevance_scorer.py`, not present under `src/`; its tests
are) parses the numbered `i: relevant` / `i: not_relevant` lines of the
AI response and fails open — every item the response does not clearly
label defaults to relevant. -/

/-- Prefix test over character lists (Python `str.startswith`). -/
def startsWithChars (pre l : List Char) : Bool :=
  decide (l.take pre.length = pre)

/-- Decimal reading of an all-digit character list (Python `int(s)`). -/
def digitsToNat (l : List Char) : Nat :=
  l.foldl (fun n c => n * 10 + (c.toNat - '0'.toNat)) 0

/-- Parse one response line into `(item number, verdict)`: a line whose
stripped text before the first colon is a number and whose stripped text
after it starts with `relevant` or `not_relevant`; anything else carries
no verdict. -/
def parseRelevanceLine (line : List Char) : Option (Nat × Bool) :=
  let num := line.takeWhile (fun c => c != ':')
  match line.dropWhile (fun c => c != ':') with
  | [] => none
  | _ :: rest =>
    let numT := stripChars num
    if numT ≠ [] ∧ numT.all Char.isDigit then
      let label := stripChars rest
      if startsWithChars "not_relevant".data label then
        some (digitsToNat numT, false)
      else if startsWithChars "relevant".data label then
        some (digitsToNat numT, true)
      else none
    else none

/-- Every `(item number, verdict)` pair the response legibly states, one
candidate per response line. -/
def parsedVerdicts (response : String) : List (Nat × Bool) :=
  (splitChar '\n' response.data).filterMap parseRelevanceLine

/-- Fail-open parse of an AI relevance response for `expectedCount`
items: start from all-relevant and overwrite only the positions the
response clearly labels (1-based numbers within range). -/
def parseRelevanceResponse (response : String) (expectedCount : Nat) :
    List Bool :=
  (parsedVerdicts response).foldl
    (fun acc iv =>
      if 1 ≤ iv.1 ∧ iv.1 ≤ expectedCount then acc.set (iv.1 - 1) iv.2
      else acc)
    (List.replicate expectedCount true)

/-! ## Constructor defaults (`BatchProcessor.__init__`, lines 72–101)

Each configuration argument defaults through Python `or`:
`self.batch_size = batch_size or settings.batch_size` and likewise for
`max_concurrent` and `delay_seconds`, so `None` and every falsy explicit
value (0, 0.0) fall back to the settings value. -/

/-- Settings fields read by `BatchProcessor.__init__`; the float
`batch_delay_seconds` becomes a rational. -/
structure BatchSettings where
  batch_size : Nat
  max_concurrent_sources : Nat
  batch_delay_seconds : ℚ
  scrape_max_results : Nat
  deriving DecidableEq, Repr

/-- Resolved configuration stored on the constructed `BatchProcessor`. -/
structure BatchProcessorCfg where
  batch_size : Nat
  max_concurrent : Nat
  delay_seconds : ℚ
  max_results_per_source : Nat
  deriving DecidableEq, Repr

/-- Python `x or default` for an optional integer argument: `None` and
`0` are falsy. -/
def pyOrNat (arg : Option Nat) (default : Nat) : Nat :=
  match arg with
  | some v => if v ≠ 0 then v else default
  | none => default

/-- Python `x or default` for an optional float argument: `None` and
`0.0` are falsy. -/
def pyOrRat (arg : Option ℚ) (default : ℚ) : ℚ :=
  match arg with
  | some v => if v ≠ 0 then v else default
  | none => default

/-- Embedding of `BatchProcessor.__init__` configuration resolution. -/
def initBatchProcessor (batchSize maxConcurrent : Option Nat)
    (delaySeconds : Option ℚ) (settings : BatchSettings) :
    BatchProcessorCfg :=
  { batch_size := pyOrNat batchSize settings.batch_size
    max_concurrent := pyOrNat maxConcurrent settings.max_concurrent_sources
    delay_seconds := pyOrRat delaySeconds settings.batch_delay_seconds
    max_results_per_source := settings.scrape_max_results }

/-! ## Helper lemmas -/

/-- The algorithmic URL dedup agrees with the declarative spec pass as
long as `seen` records exactly the non-empty URLs of the already
traversed prefix `prev`. -/
theorem dedupURLAux_eq_specAux (l : List FArticle) :
    ∀ seen prev,
      (∀ u : String, u ∈ seen ↔ u ≠ "" ∧ ∃ p ∈ prev, p.source_url = u) →
      dedupURLAux seen l = dedupURLSpecAux prev l := by
  induction l with
  | nil => intro seen prev _; rfl
  | cons a rest ih =>
    intro seen prev hinv
    by_cases hne : a.source_url = ""
    · have hdrop : ¬(a.source_url ≠ "" ∧ a.source_url ∈ seen) := by
        intro h; exact h.1 hne
      rw [dedupURLAux, dedupURLSpecAux]
      rw [if_neg hdrop, if_neg (by intro h; exact h hne), if_pos (Or.inl hne)]
      congr 1
      apply ih
      intro u
      rw [hinv u]
      constructor
      · rintro ⟨hu, p, hp, hpu⟩
        exact ⟨hu, p, List.mem_append_left _ hp, hpu⟩
      · rintro ⟨hu, p, hp, hpu⟩
        rcases List.mem_append.1 hp with hp | hp
        · exact ⟨hu, p, hp, hpu⟩
        · rcases List.mem_singleton.1 hp with rfl
          exact absurd (hpu ▸ hne) hu
    · by_cases hseen : a.source_url ∈ seen
      · have hprev : ∃ p ∈ prev, p.source_url = a.source_url :=
          ((hinv a.source_url).1 hseen).2
        rw [dedupURLAux, dedupURLSpecAux]
        rw [if_pos ⟨hne, hseen⟩, if_neg]
        · apply ih
          intro u
          rw [hinv u]
          constructor
          · rintro ⟨hu, p, hp, hpu⟩
            exact ⟨hu, p, List.mem_append_left _ hp, hpu⟩
          · rintro ⟨hu, p, hp, hpu⟩
            rcases List.mem_append.1 hp with hp | hp
            · exact ⟨hu, p, hp, hpu⟩
            · rcases List.mem_singleton.1 hp with rfl
              rcases hprev with ⟨q, hq, hqu⟩
              exact ⟨hu, q, hq, hpu ▸ hqu⟩
        · rintro (h | h)
          · exact hne h
          · rcases hprev with ⟨q, hq, hqu⟩
            exact h q hq hqu
      · have hkeep : ∀ p ∈ prev, p.source_url ≠ a.source_url := by
          intro p hp hpu
          exact hseen ((hinv a.source_url).2 ⟨hne, p, hp, hpu⟩)
        rw [dedupURLAux, dedupURLSpecAux]
        rw [if_neg (by intro h; exact hseen h.2), if_pos hne,
          if_pos (Or.inr hkeep)]
        congr 1
        apply ih
        intro u
        constructor
        · intro hu
          rcases List.mem_cons.1 hu with rfl | hu
          · exact ⟨hne, a, List.mem_append_right _ (List.mem_singleton.2 rfl),
              rfl⟩
          · rcases (hinv u).1 hu with ⟨h1, p, hp, hpu⟩
            exact ⟨h1, p, List.mem_append_left _ hp, hpu⟩
        · rintro ⟨h1, p, hp, hpu⟩
          rcases List.mem_append.1 hp with hp | hp
          · exact List.mem_cons_of_mem _ ((hinv u).2 ⟨h1, p, hp, hpu⟩)
          · rcases List.mem_singleton.1 hp with rfl
            exact hpu ▸ List.mem_cons_self _ _

/-- Output of `dedupURLAux` is a sublist of its input. -/
theorem dedupURLAux_sublist (l : List FArticle) :
    ∀ seen, List.Sublist (dedupURLAux seen l) l := by
  induction l with
  | nil => intro seen; simp [dedupURLAux]
  | cons a rest ih =>
    intro seen
    rw [dedupURLAux]
    split
    · exact (ih seen).cons a
    · split
      · exact (ih _).cons₂ a
      · exact (ih seen).cons₂ a

/-- Output of `semanticDedupAux` is a sublist of its input. -/
theorem semanticDedupAux_sublist (sim : FArticle → FArticle → Bool)
    (l : List FArticle) :
    ∀ kept, List.Sublist (semanticDedupAux sim kept l) l := by
  induction l with
  | nil => intro kept; simp [semanticDedupAux]
  | cons a rest ih =>
    intro kept
    rw [semanticDedupAux]
    split
    · exact (ih kept).cons a
    · exact (ih _).cons₂ a

/-- Pairwise relation on articles imposed by the stage-1 pass: two
retained articles never share a non-empty URL. -/
def UrlDistinct (a b : FArticle) : Prop :=
  a.source_url = "" ∨ b.source_url = "" ∨ a.source_url ≠ b.source_url

/-- Stage-1 output carries pairwise distinct non-empty URLs, none of them
in `seen`. -/
theorem dedupURLAux_pairwise (l : List FArticle) :
    ∀ seen, (dedupURLAux seen l).Pairwise UrlDistinct ∧
      ∀ a ∈ dedupURLAux seen l, a.source_url ≠ "" → a.source_url ∉ seen := by
  induction l with
  | nil => intro seen; simp [dedupURLAux]
  | cons a rest ih =>
    intro seen
    rw [dedupURLAux]
    split
    · exact ih seen
    · next hcond =>
      split
      · next hne =>
        rcases ih (a.source_url :: seen) with ⟨hpw, hfresh⟩
        constructor
        · refine List.pairwise_cons.2 ⟨?_, hpw⟩
          intro b hb
          by_cases hbe : b.source_url = ""
          · exact Or.inr (Or.inl hbe)
          · refine Or.inr (Or.inr ?_)
            intro heq
            exact hfresh b hb hbe (heq ▸ List.mem_cons_self _ _)
        · intro b hb hbe
          rcases List.mem_cons.1 hb with rfl | hb
          · intro hmem; exact hcond ⟨hbe, hmem⟩
          · intro hmem
            exact hfresh b hb hbe (List.mem_cons_of_mem _ hmem)
      · next hne =>
        have hae : a.source_url = "" := by
          by_contra h; exact hne h
        rcases ih seen with ⟨hpw, hfresh⟩
        constructor
        · refine List.pairwise_cons.2 ⟨?_, hpw⟩
          intro b _
          exact Or.inl hae
        · intro b hb hbe
          rcases List.mem_cons.1 hb with rfl | hb
          · exact absurd hae hbe
          · exact hfresh b hb hbe

/-- Stage-1 is the identity on a list whose non-empty URLs are pairwise
distinct and disjoint from `seen`. -/
theorem dedupURLAux_id (l : List FArticle) :
    ∀ seen, l.Pairwise UrlDistinct →
      (∀ a ∈ l, a.source_url ≠ "" → a.source_url ∉ seen) →
      dedupURLAux seen l = l := by
  induction l with
  | nil => intro seen _ _; rfl
  | cons a rest ih =>
    intro seen hpw hfresh
    rcases List.pairwise_cons.1 hpw with ⟨hhead, htail⟩
    rw [dedupURLAux]
    by_cases hae : a.source_url = ""
    · rw [if_neg (by intro h; exact h.1 hae), if_neg (by intro h; exact h hae)]
      congr 1
      exact ih seen htail (fun b hb => hfresh b (List.mem_cons_of_mem _ hb))
    · rw [if_neg (by intro h; exact hfresh a (List.mem_cons_self _ _) hae h.2),
        if_pos hae]
      congr 1
      apply ih _ htail
      intro b hb hbe
      intro hmem
      rcases List.mem_cons.1 hmem with heq | hmem
      · rcases hhead b hb with h | h | h
        · exact hae h
        · exact hbe h
        · exact h heq.symm
      · exact hfresh b (List.mem_cons_of_mem _ hb) hbe hmem

/-- Greedy first-wins clustering is idempotent for every fixed set of
already kept representatives. -/
theorem semanticDedupAux_idem (sim : FArticle → FArticle → Bool)
    (l : List FArticle) :
    ∀ kept, semanticDedupAux sim kept (semanticDedupAux sim kept l) =
      semanticDedupAux sim kept l := by
  induction l with
  | nil => intro kept; rfl
  | cons a rest ih =>
    intro kept
    rw [semanticDedupAux]
    split
    · exact ih kept
    · next hnot =>
      rw [semanticDedupAux, if_neg hnot]
      congr 1
      exact ih _

/-- Batches reassemble to the original list. -/
theorem chunkList_flatten {α : Type} (k : Nat) (l : List α) :
    (chunkList k l).flatten = l := by
  induction k, l using chunkList.induct with
  | case1 k => simp [chunkList]
  | case2 l hne =>
    cases l with
    | nil => simp [chunkList]
    | cons x xs => simp [chunkList]
  | case3 k x xs ih =>
    rw [chunkList]
    simp only [List.flatten_cons, ih, List.take_append_drop]

/-- Folding the per-batch converted results over the batches equals one
fold over the converted flattened list. -/
theorem foldl_map_chunks {α β γ : Type} (conv : α → β) (up : γ → β → γ) :
    ∀ (chunks : List (List α)) (p : γ),
      chunks.foldl (fun acc batch => (batch.map conv).foldl up acc) p =
      (chunks.flatten.map conv).foldl up p := by
  intro chunks
  induction chunks with
  | nil => intro p; rfl
  | cons c cs ih =>
    intro p
    rw [List.foldl_cons, ih, List.flatten_cons, List.map_append,
      List.foldl_append]

/-- Error entry a result contributes to `BatchProgress.errors`. -/
def errorEntry (r : InsurerResult) : Option String :=
  r.error.map (fun e => r.insurer_name ++ ": " ++ e)

/-- Field accounting of the per-result progress fold: the total is
untouched, the processed count advances once per result, and the errors
list extends by exactly the error entries, in order. -/
theorem foldl_updateProgress_fields :
    ∀ (rs : List InsurerResult) (p : BatchProgress),
      (rs.foldl updateProgress p).total_insurers = p.total_insurers ∧
      (rs.foldl updateProgress p).processed_insurers =
        p.processed_insurers + rs.length ∧
      (rs.foldl updateProgress p).errors =
        p.errors ++ rs.filterMap errorEntry := by
  intro rs
  induction rs with
  | nil => intro p; simp
  | cons r rest ih =>
    intro p
    rcases ih (updateProgress p r) with ⟨h1, h2, h3⟩
    refine ⟨by simpa [updateProgress] using h1, ?_, ?_⟩
    · rw [List.foldl_cons, h2]
      simp only [updateProgress, List.length_cons]
      omega
    · rw [List.foldl_cons, h3]
      cases herr : r.error with
      | none =>
        simp [updateProgress, herr, List.filterMap_cons, errorEntry]
      | some e =>
        simp [updateProgress, herr, List.filterMap_cons, errorEntry]

/-- Under non-empty insurers and sources, `processInsurers` reduces to the
single fold of the converted task results over the whole insurer list. -/
theorem processInsurers_eq_fold (batchSize : Nat) (sources : List NewsSrc)
    (runTask : Insurer → Except String InsurerResult)
    (insurers : List Insurer) (hins : insurers ≠ []) (hsrc : sources ≠ []) :
    processInsurers batchSize sources runTask insurers =
      (processBatch runTask insurers).foldl updateProgress
        ⟨insurers.length, 0, 0, []⟩ := by
  rw [processInsurers]
  rw [if_neg (by simpa [List.isEmpty_iff] using hins),
    if_neg (by simpa [List.isEmpty_iff] using hsrc)]
  show (chunkList batchSize insurers).foldl
      (fun p batch => (processBatch runTask batch).foldl updateProgress p) _ = _
  simp only [processBatch]
  rw [foldl_map_chunks, chunkList_flatten]

/-- Alias candidate strings the matcher loop iterates for an insurer:
the comma-split stripped `search_terms` when truthy, nothing otherwise. -/
def insurerAliases (ins : Insurer) : List String :=
  if ins.search_terms.getD "" ≠ "" then splitSearchTerms (ins.search_terms.getD "")
  else []

/-- A word-bounded search over empty text never succeeds. -/
theorem searchWordBounded_empty_text (pat : String) (h : pat.data ≠ []) :
    searchWordBounded pat "" = false := by
  have hd : ("" : String).data = [] := rfl
  rw [searchWordBounded, hd]
  cases hp : pat.data with
  | nil => exact absurd hp h
  | cons c cs => simp [occursBoundedAt, hp]

/-- The per-insurer loop body succeeds exactly when the insurer's
normalized name is long enough and either the name or one of its long
enough normalized aliases occurs word-bounded in the content. -/
theorem insurerMatches_iff (content : String) (ins : Insurer) :
    insurerMatches content ins = true ↔
      4 ≤ (normalizeText ins.name).length ∧
        (searchWordBounded (normalizeText ins.name) content = true ∨
          ∃ t ∈ insurerAliases ins, 4 ≤ (normalizeText t).length ∧
            searchWordBounded (normalizeText t) content = true) := by
  rw [insurerMatches]
  by_cases h4 : (normalizeText ins.name).length < 4
  · rw [if_pos h4]
    constructor
    · intro h
      exact absurd h (by simp)
    · rintro ⟨hle, _⟩
      omega
  · rw [if_neg h4]
    have h4' : 4 ≤ (normalizeText ins.name).length := by omega
    by_cases hname : searchWordBounded (normalizeText ins.name) content = true
    · rw [if_pos hname]
      simp only [true_iff]
      exact ⟨h4', Or.inl hname⟩
    · rw [if_neg hname]
      by_cases hts : ins.search_terms.getD "" = ""
      · rw [if_neg (by simpa using hts)]
        constructor
        · intro h
          exact absurd h (by simp)
        · rintro ⟨_, hocc | ⟨t, ht, hlen, hocc⟩⟩
          · exact absurd hocc hname
          · rw [insurerAliases, if_neg (by simpa using hts)] at ht
            cases ht
      · rw [if_pos hts]
        rw [List.any_eq_true]
        constructor
        · rintro ⟨t, ht, hmatch⟩
          rw [Bool.and_eq_true] at hmatch
          rcases hmatch with ⟨hlen, hocc⟩
          refine ⟨h4', Or.inr ⟨t, ?_, of_decide_eq_true hlen, hocc⟩⟩
          rw [insurerAliases, if_pos hts]
          exact ht
        · rintro ⟨_, hocc | ⟨t, ht, hlen, hocc⟩⟩
          · exact absurd hocc hname
          · rw [insurerAliases, if_pos hts] at ht
            refine ⟨t, ht, ?_⟩
            rw [Bool.and_eq_true]
            exact ⟨decide_eq_true hlen, hocc⟩

/-! ## Claim theorems -/

/-- C2.  Stage-1 exact URL dedup: for every input article list, the output
is the declarative first-occurrence pass — iterating in original order,
dropping exactly the articles whose non-empty `source_url` equals the
`source_url` of an earlier article, retaining every article with an empty
`source_url` — and the `[{url: a}, {url: a}, {url: b}]` example yields
exactly `[{url: a}, {url: b}]`. -/
theorem dedupURL_matches_spec :
    (∀ articles : List FArticle, dedupURL articles = dedupURLSpec articles) ∧
    dedupURL [⟨"t1", "", "a"⟩, ⟨"t2", "", "a"⟩, ⟨"t3", "", "b"⟩] =
      [⟨"t1", "", "a"⟩, ⟨"t3", "", "b"⟩] := by
  constructor
  · intro articles
    apply dedupURLAux_eq_specAux articles [] []
    simp
  · decide

/-- Appending to a string with non-empty data never yields the empty
string. -/
theorem string_append_ne_empty (s t u : String) (h : s.data ≠ []) :
    s ++ t ++ u ≠ "" := by
  intro he
  apply h
  have hd : (s ++ t ++ u).data = ("" : String).data := by rw [he]
  rw [String.data_append, String.data_append] at hd
  exact (List.append_eq_nil.1 (List.append_eq_nil.1 hd).1).1

/-- C5 counterexample: an insurer whose name normalizes to the 3-character
`sul` but whose alias `SulAmerica` is a qualifying candidate (normalized
length ≥ 4, word-bounded occurrence in the article) is nevertheless not
matched — the short name makes the loop skip the insurer before its
aliases are consulted. -/
theorem deterministicMatch_alias_skipped :
    (4 ≤ (normalizeText "SulAmerica").length ∧
      "SulAmerica" ∈ insurerAliases ⟨1, "Sul", "000", some "SulAmerica"⟩ ∧
      searchWordBounded (normalizeText "SulAmerica")
        (normalizeText ("SulAmerica anuncia" ++ " " ++ "")) = true) ∧
    deterministicMatch ⟨"SulAmerica anuncia", "", ""⟩
      [⟨1, "Sul", "000", some "SulAmerica"⟩] = [] := by
  decide

/-- C5 (amended).  Deterministic match definition: an entity is matched
iff its normalized name (NFKD-decomposed, accents stripped, lowercased)
has length at least 4 and either the name or one of its comma-separated
aliases of normalized length at least 4 occurs word-boundary-delimited in
the normalized article title-plus-description; when the name is shorter
than 4 the entity is skipped outright, its aliases never consulted.
Consequently matching is accent-insensitive in both directions
(`SulAmérica` ≡ `SulAmerica`) and `consulta` does not match an entity
named `Sul`. -/
theorem deterministicMatch_characterization :
    (∀ (article : FArticle) (insurers : List Insurer) (insId : Nat),
      insId ∈ deterministicMatch article insurers ↔
        ∃ ins ∈ insurers, ins.id = insId ∧
          4 ≤ (normalizeText ins.name).length ∧
          (searchWordBounded (normalizeText ins.name)
              (normalizeText (article.title ++ " " ++ article.description)) =
              true ∨
            ∃ t ∈ insurerAliases ins,
              4 ≤ (normalizeText t).length ∧
              searchWordBounded (normalizeText t)
                (normalizeText (article.title ++ " " ++ article.description)) =
                true)) ∧
    deterministicMatch ⟨"SulAmérica cresce", "", ""⟩
      [⟨7, "SulAmerica", "123", none⟩] = [7] ∧
    deterministicMatch ⟨"SulAmerica cresce", "", ""⟩
      [⟨7, "SulAmérica", "123", none⟩] = [7] ∧
    deterministicMatch ⟨"Artigo sobre consulta", "", ""⟩
      [⟨1, "Sul", "000", none⟩] = [] := by
  refine ⟨?_, by decide, by decide, by decide⟩
  intro article insurers insId
  rw [deterministicMatch]
  by_cases hc : normalizeText (article.title ++ " " ++ article.description) = ""
  · rw [if_pos hc]
    simp only [List.not_mem_nil, false_iff]
    rintro ⟨ins, _, _, h4, hocc | ⟨t, _, h4t, hocct⟩⟩
    · rw [hc] at hocc
      rw [searchWordBounded_empty_text] at hocc
      · exact Bool.false_ne_true hocc
      · intro hd
        have : (normalizeText ins.name).length = 0 := by
          show (normalizeText ins.name).data.length = 0
          rw [hd]; rfl
        omega
    · rw [hc] at hocct
      rw [searchWordBounded_empty_text] at hocct
      · exact Bool.false_ne_true hocct
      · intro hd
        have : (normalizeText t).length = 0 := by
          show (normalizeText t).data.length = 0
          rw [hd]; rfl
        omega
  · rw [if_neg hc]
    rw [List.mem_map]
    constructor
    · rintro ⟨ins, hins, hid⟩
      rcases List.mem_filter.1 hins with ⟨hmem, hmatch⟩
      rcases (insurerMatches_iff _ ins).1 hmatch with ⟨h4, hrest⟩
      exact ⟨ins, hmem, hid, h4, hrest⟩
    · rintro ⟨ins, hmem, hid, h4, hrest⟩
      refine ⟨ins, List.mem_filter.2 ⟨hmem, ?_⟩, hid⟩
      exact (insurerMatches_iff _ ins).2 ⟨h4, hrest⟩

/-- C1 counterexample: at an article with exactly one deterministic match
the returned method tag is the underscore string `deterministic_single`,
not the hyphenated `deterministic-single` the claim states. -/
theorem matchArticle_hyphen_method_refuted :
    (deterministicMatch ⟨"SulAmérica cresce", "", ""⟩
      [⟨7, "SulAmerica", "123", none⟩]).length = 1 ∧
    (matchArticle false (fun _ _ => ⟨[], 0, "ai", "ai"⟩)
      ⟨"SulAmérica cresce", "", ""⟩
      [⟨7, "SulAmerica", "123", none⟩]).method ≠ "deterministic-single" := by
  decide

/-- C1 (amended).  Matcher tiering with AI disambiguation unavailable:
exactly 1 deterministic match yields method `deterministic_single` with
confidence 0.95 and the singleton matched ids; 2 or 3 matches yield
`deterministic_multi` with confidence 0.85 and the matched ids; 0 matches
or more than 3 yield `unmatched` with empty ids, confidence 0.0 and a
non-empty explanatory reasoning string.  (The method tags use
underscores, not the hyphens the claim quotes.) -/
theorem matchArticle_tiering
    (aiMatch : FArticle → List Insurer → MatchResult)
    (article : FArticle) (insurers : List Insurer) :
    ((deterministicMatch article insurers).length = 1 →
      (matchArticle false aiMatch article insurers).method =
          "deterministic_single" ∧
        (matchArticle false aiMatch article insurers).confidence = 95 / 100 ∧
        (matchArticle false aiMatch article insurers).insurer_ids =
          deterministicMatch article insurers) ∧
    ((deterministicMatch article insurers).length = 2 ∨
        (deterministicMatch article insurers).length = 3 →
      (matchArticle false aiMatch article insurers).method =
          "deterministic_multi" ∧
        (matchArticle false aiMatch article insurers).confidence = 85 / 100 ∧
        (matchArticle false aiMatch article insurers).insurer_ids =
          deterministicMatch article insurers) ∧
    ((deterministicMatch article insurers).length = 0 ∨
        3 < (deterministicMatch article insurers).length →
      (matchArticle false aiMatch article insurers).method = "unmatched" ∧
        (matchArticle false aiMatch article insurers).insurer_ids = [] ∧
        (matchArticle false aiMatch article insurers).confidence = 0 ∧
        (matchArticle false aiMatch article insurers).reasoning ≠ "") := by
  refine ⟨?_, ?_, ?_⟩
  · intro h1
    simp only [matchArticle]
    rw [if_pos h1]
    exact ⟨rfl, rfl, rfl⟩
  · intro h23
    simp only [matchArticle]
    rw [if_neg (by omega), if_pos (by omega)]
    exact ⟨rfl, rfl, rfl⟩
  · intro h0
    simp only [matchArticle]
    rw [if_neg (by omega), if_neg (by push_neg; omega)]
    rcases Nat.lt_or_ge 3 (deterministicMatch article insurers).length with
      hgt | hle
    · rw [if_pos hgt, if_neg Bool.false_ne_true]
      refine ⟨rfl, rfl, rfl, ?_⟩
      exact string_append_ne_empty _ _ _ (by decide)
    · rw [if_neg (by omega), if_neg Bool.false_ne_true]
      exact ⟨rfl, rfl, rfl, by decide⟩

/-- C1 witness: a single-match article is tagged `deterministic_single`
with the singleton matched id, and a no-match article is tagged
`unmatched` with empty ids. -/
theorem matchArticle_tiering_witness :
    (matchArticle false (fun _ _ => ⟨[], 0, "ai", "ai"⟩)
        ⟨"SulAmérica cresce", "", ""⟩
        [⟨7, "SulAmerica", "123", none⟩]).method = "deterministic_single" ∧
      (matchArticle false (fun _ _ => ⟨[], 0, "ai", "ai"⟩)
        ⟨"SulAmérica cresce", "", ""⟩
        [⟨7, "SulAmerica", "123", none⟩]).insurer_ids =
        deterministicMatch ⟨"SulAmérica cresce", "", ""⟩
          [⟨7, "SulAmerica", "123", none⟩] ∧
      (matchArticle false (fun _ _ => ⟨[], 0, "ai", "ai"⟩)
        ⟨"nada aqui", "", ""⟩
        [⟨7, "SulAmerica", "123", none⟩]).method = "unmatched" := by
  have h1 := matchArticle_tiering (fun _ _ => ⟨[], 0, "ai", "ai"⟩)
    ⟨"SulAmérica cresce", "", ""⟩ [⟨7, "SulAmerica", "123", none⟩]
  have h2 := matchArticle_tiering (fun _ _ => ⟨[], 0, "ai", "ai"⟩)
    ⟨"nada aqui", "", ""⟩ [⟨7, "SulAmerica", "123", none⟩]
  exact ⟨(h1.1 (by decide)).1, (h1.1 (by decide)).2.2,
    (h2.2.2 (Or.inl (by decide))).1⟩

/-- C6.  Unmatched routing invariant: a match result whose
`insurer_ids` is empty carries method `unmatched` (unconditionally for
the deterministic tiers, and for the AI tiers whenever the AI results
satisfy the same contract); and the stored fan-out targets are the first
3 ids of a non-empty match and exactly the sentinel for an empty match,
never the empty list. -/
theorem matchResult_unmatched_routing :
    (∀ (aiEnabled : Bool) (aiMatch : FArticle → List Insurer → MatchResult)
        (article : FArticle) (insurers : List Insurer),
      (∀ a l, (aiMatch a l).insurer_ids = [] →
        (aiMatch a l).method = "unmatched") →
      (matchArticle aiEnabled aiMatch article insurers).insurer_ids = [] →
      (matchArticle aiEnabled aiMatch article insurers).method =
        "unmatched") ∧
    ∀ (m : MatchResult) (sentinelId : Nat),
      (m.insurer_ids ≠ [] →
        targetIds m sentinelId = m.insurer_ids.take 3) ∧
      (m.insurer_ids = [] → targetIds m sentinelId = [sentinelId]) ∧
      targetIds m sentinelId ≠ [] := by
  constructor
  · intro aiEnabled aiMatch article insurers hai
    rw [matchArticle]
    split_ifs with h1 h23 hgt hai1 hai2
    · intro hempty
      simp only at hempty
      rw [hempty] at h1
      simp at h1
    · intro hempty
      simp only at hempty
      rw [hempty] at h23
      simp at h23
    · exact hai _ _
    · intro _; rfl
    · exact hai _ _
    · intro _; rfl
  · intro m sentinelId
    cases hm : m.insurer_ids with
    | nil =>
      refine ⟨fun h => absurd rfl h, fun _ => ?_, ?_⟩
      · rw [targetIds, hm]
        rfl
      · rw [targetIds, hm]
        simp
    | cons x xs =>
      refine ⟨fun _ => ?_, fun h => absurd h (List.cons_ne_nil x xs), ?_⟩
      · rw [targetIds, hm]
        simp
      · rw [targetIds, hm]
        simp

/-- C6 witness: a no-match article gets the `unmatched` method, and an
empty match routes to exactly the sentinel id. -/
theorem matchResult_unmatched_routing_witness :
    (matchArticle false (fun _ _ => ⟨[], 0, "unmatched", "ai"⟩)
        ⟨"nada", "", ""⟩ []).method = "unmatched" ∧
      targetIds ⟨[], 0, "unmatched", "ai"⟩ 99 = [99] ∧
      targetIds ⟨[1, 2, 3, 4], 85 / 100, "deterministic_multi", "m"⟩ 99 =
        [1, 2, 3] := by
  have h := matchResult_unmatched_routing
  refine ⟨h.1 false _ ⟨"nada", "", ""⟩ [] (fun a l _ => rfl) (by decide),
    (h.2 ⟨[], 0, "unmatched", "ai"⟩ 99).2.1 rfl, ?_⟩
  have h3 := (h.2 ⟨[1, 2, 3, 4], 85 / 100, "deterministic_multi", "m"⟩ 99).1
    (by decide)
  rw [h3]
  rfl

/-- C4.  Orchestrator fault isolation: for every non-empty insurer list
with at least one source configured, `process_insurers` completes with
`total_insurers` and `processed_insurers` equal to the number of input
insurers (failed ones included), and every per-insurer exception is
converted into the `"{name}: {error}"` string appended to
`BatchProgress.errors` — a failing insurer removes no other insurer from
the accounting. -/
theorem processInsurers_fault_isolation (batchSize : Nat)
    (sources : List NewsSrc)
    (runTask : Insurer → Except String InsurerResult)
    (insurers : List Insurer) (hins : insurers ≠ []) (hsrc : sources ≠ []) :
    (processInsurers batchSize sources runTask insurers).total_insurers =
        insurers.length ∧
      (processInsurers batchSize sources runTask insurers).processed_insurers =
        insurers.length ∧
      ∀ ins ∈ insurers, ∀ e, runTask ins = .error e →
        (ins.name ++ ": " ++ e) ∈
          (processInsurers batchSize sources runTask insurers).errors := by
  rw [processInsurers_eq_fold batchSize sources runTask insurers hins hsrc]
  rcases foldl_updateProgress_fields (processBatch runTask insurers)
    ⟨insurers.length, 0, 0, []⟩ with ⟨h1, h2, h3⟩
  refine ⟨h1, ?_, ?_⟩
  · rw [h2]
    simp [processBatch]
  · intro ins hins' e herr
    rw [h3]
    simp only [List.nil_append]
    apply List.mem_filterMap.2
    refine ⟨⟨ins.id, ins.name, [], some e⟩, ?_, rfl⟩
    simp only [processBatch, List.mem_map]
    exact ⟨ins, hins', by rw [herr]⟩

/-- C4 witness: two insurers and one source, the second insurer's task
raising; both insurers are counted and the error string is recorded. -/
theorem processInsurers_fault_isolation_witness :
    (processInsurers 30 [⟨"ok", fun _ _ => .ok []⟩]
        (fun i => if i.id = 2 then .error "boom" else .ok ⟨i.id, i.name, [], none⟩)
        [⟨1, "Good", "1", none⟩, ⟨2, "Bad", "2", none⟩]).processed_insurers = 2 ∧
      ("Bad: boom") ∈
        (processInsurers 30 [⟨"ok", fun _ _ => .ok []⟩]
          (fun i => if i.id = 2 then .error "boom" else .ok ⟨i.id, i.name, [], none⟩)
          [⟨1, "Good", "1", none⟩, ⟨2, "Bad", "2", none⟩]).errors := by
  have h := processInsurers_fault_isolation 30 [⟨"ok", fun _ _ => .ok []⟩]
    (fun i => if i.id = 2 then .error "boom" else .ok ⟨i.id, i.name, [], none⟩)
    [⟨1, "Good", "1", none⟩, ⟨2, "Bad", "2", none⟩]
    (by simp) (by simp)
  exact ⟨h.2.1, h.2.2 ⟨2, "Bad", "2", none⟩ (by simp) "boom" rfl⟩

/-- C3 counterexample: one insurer, one source, the source raising — all
configured sources failed for the entity, yet `BatchProgress.errors`
stays empty (the claimed error string is never appended), and the entity
yields an empty result. -/
theorem scrapeInsurer_total_failure_no_error :
    ((⟨"fail", fun _ _ => .error "boom"⟩ : NewsSrc).search
        (buildQuery ⟨1, "Acme", "123", none⟩) 10 = .error "boom") ∧
      (scrapeInsurer [⟨"fail", fun _ _ => .error "boom"⟩] 10
        ⟨1, "Acme", "123", none⟩).items = [] ∧
      (processInsurers 30 [⟨"fail", fun _ _ => .error "boom"⟩]
        (fun i => .ok (scrapeInsurer [⟨"fail", fun _ _ => .error "boom"⟩] 10 i))
        [⟨1, "Acme", "123", none⟩]).errors = [] := by
  refine ⟨rfl, rfl, ?_⟩
  rw [processInsurers_eq_fold _ _ _ _ (by simp) (by simp)]
  rfl

/-- C3 (amended).  Per-entity source-failure accounting: a failing source
is caught and never aborts the entity — `_scrape_insurer` always returns
a result with `error = None` whose items are the concatenation, in source
order, of the items of the sources that succeeded; total failure of all
sources yields an empty result (never an exception); and no error string
is ever appended to `BatchProgress.errors` on behalf of source failures,
even when every source fails for the entity. -/
theorem scrapeInsurer_source_failure_accounting (sources : List NewsSrc)
    (maxResults : Nat) (ins : Insurer) :
    (scrapeInsurer sources maxResults ins).error = none ∧
      (scrapeInsurer sources maxResults ins).items =
        (sources.filterMap
          (fun s => (s.search (buildQuery ins) maxResults).toOption)).flatten ∧
      ((∀ s ∈ sources, ∀ items,
          s.search (buildQuery ins) maxResults ≠ .ok items) →
        (scrapeInsurer sources maxResults ins).items = []) ∧
      ∀ (batchSize : Nat) (insurers : List Insurer),
        insurers ≠ [] → sources ≠ [] →
        (processInsurers batchSize sources
            (fun i => .ok (scrapeInsurer sources maxResults i))
            insurers).errors = [] := by
  refine ⟨rfl, ?_, ?_, ?_⟩
  · show (sources.map (fun s =>
        match s.search (buildQuery ins) maxResults with
        | .ok items => items
        | .error _ => [])).flatten = _
    induction sources with
    | nil => rfl
    | cons s rest ih =>
      simp only [List.map_cons, List.filterMap_cons, List.flatten_cons]
      cases h : s.search (buildQuery ins) maxResults with
      | ok items =>
        simp only [h, Except.toOption, List.flatten_cons, ih]
      | error e =>
        simp only [h, Except.toOption, List.flatten_cons, List.nil_append, ih]
  · intro hall
    show (sources.map (fun s =>
        match s.search (buildQuery ins) maxResults with
        | .ok items => items
        | .error _ => [])).flatten = []
    rw [List.flatten_eq_nil_iff]
    intro l hl
    rcases List.mem_map.1 hl with ⟨s, hs, hconv⟩
    cases h : s.search (buildQuery ins) maxResults with
    | ok items => exact absurd h (hall s hs items)
    | error e => rw [h] at hconv; exact hconv.symm
  · intro batchSize insurers hins hsrc
    rw [processInsurers_eq_fold batchSize sources _ insurers hins hsrc]
    rcases foldl_updateProgress_fields
      (processBatch (fun i => .ok (scrapeInsurer sources maxResults i)) insurers)
      ⟨insurers.length, 0, 0, []⟩ with ⟨_, _, h3⟩
    rw [h3]
    simp only [List.nil_append, List.filterMap_eq_nil_iff]
    intro r hr
    rcases List.mem_map.1 hr with ⟨i, _, hconv⟩
    rw [← hconv]
    rfl

/-- C3 witness for the amended claim: one succeeding and one failing
source — the entity keeps the succeeding source's item, reports no error,
and the run records no error string. -/
theorem scrapeInsurer_source_failure_accounting_witness :
    (scrapeInsurer
        [⟨"good", fun _ _ => .ok [⟨"t", none, none, none⟩]⟩,
         ⟨"fail", fun _ _ => .error "down"⟩] 10
        ⟨1, "Acme", "123", none⟩).items = [⟨"t", none, none, none⟩] ∧
      (scrapeInsurer
        [⟨"good", fun _ _ => .ok [⟨"t", none, none, none⟩]⟩,
         ⟨"fail", fun _ _ => .error "down"⟩] 10
        ⟨1, "Acme", "123", none⟩).error = none ∧
      (processInsurers 30
        [⟨"good", fun _ _ => .ok [⟨"t", none, none, none⟩]⟩,
         ⟨"fail", fun _ _ => .error "down"⟩]
        (fun i => .ok (scrapeInsurer
          [⟨"good", fun _ _ => .ok [⟨"t", none, none, none⟩]⟩,
           ⟨"fail", fun _ _ => .error "down"⟩] 10 i))
        [⟨1, "Acme", "123", none⟩]).errors = [] := by
  have h := scrapeInsurer_source_failure_accounting
    [⟨"good", fun _ _ => .ok [⟨"t", none, none, none⟩]⟩,
     ⟨"fail", fun _ _ => .error "down"⟩] 10 ⟨1, "Acme", "123", none⟩
  refine ⟨?_, h.1, h.2.2.2 30 [⟨1, "Acme", "123", none⟩] (by simp) (by simp)⟩
  rw [h.2.1]
  rfl

/-- C7.  Dedup idempotence: the full deduplication pass (stage-1 exact URL
dedup followed by the greedy semantic stage) applied to its own output
returns that output unchanged, for every article list and every
deterministic similarity predicate. -/
theorem dedupPass_idempotent (sim : FArticle → FArticle → Bool)
    (articles : List FArticle) :
    dedupPass sim (dedupPass sim articles) = dedupPass sim articles := by
  have hpw : (dedupURL articles).Pairwise UrlDistinct :=
    (dedupURLAux_pairwise articles []).1
  have hsub : List.Sublist (semanticDedup sim (dedupURL articles))
      (dedupURL articles) :=
    semanticDedupAux_sublist sim (dedupURL articles) []
  have hstage1 : dedupURL (semanticDedup sim (dedupURL articles)) =
      semanticDedup sim (dedupURL articles) :=
    dedupURLAux_id _ [] (List.Pairwise.sublist hsub hpw) (by simp)
  show semanticDedup sim (dedupURL (semanticDedup sim (dedupURL articles))) =
    semanticDedup sim (dedupURL articles)
  rw [hstage1]
  exact semanticDedupAux_idem sim _ []

/-- C8.  Orchestrator concurrency bound: in every state a batch can reach
under the size-`maxConcurrent` semaphore gating each scrape
(`asyncio.Semaphore(self.max_concurrent)` in `_process_batch`), at most
`maxConcurrent` scrape tasks are running, whatever the batch size `n`. -/
theorem semaphore_concurrency_bound (maxConcurrent n : Nat) (s : SemState)
    (h : SemReachable maxConcurrent n s) : s.running ≤ maxConcurrent := by
  induction h with
  | refl => exact Nat.zero_le _
  | tail _ step ih =>
    cases step with
    | start hw hr => exact hr
    | finish hr => exact Nat.le_trans (Nat.sub_le _ _) ih

/-- C8 witness: with `max_concurrent = 2` and a batch of 10 tasks, the
state with two tasks in flight is reachable and respects the bound. -/
theorem semaphore_concurrency_bound_witness :
    (⟨8, 2, 0⟩ : SemState).running ≤ 2 := by
  apply semaphore_concurrency_bound 2 10 ⟨8, 2, 0⟩
  have h1 : SemStep 2 (semInit 10) ⟨9, 1, 0⟩ :=
    SemStep.start (semInit 10) (by decide) (by decide)
  have h2 : SemStep 2 ⟨9, 1, 0⟩ ⟨8, 2, 0⟩ :=
    SemStep.start ⟨9, 1, 0⟩ (by decide) (by decide)
  exact Relation.ReflTransGen.tail (Relation.ReflTransGen.single h1) h2

/-- C9.  Relevance fail-open parsing: for every response string and
expected item count `n`, the parser returns exactly `n` booleans; every
item position the response does not clearly label keeps the `True`
default; a completely unparseable response for 3 items yields
`[True, True, True]`; and a partial response labelling only items 1 and 3
defaults the missing item 2 to `True`. -/
theorem parseRelevance_fail_open (response : String) (n : Nat) :
    (parseRelevanceResponse response n).length = n ∧
      (∀ i, i < n → (∀ p ∈ parsedVerdicts response, p.1 ≠ i + 1) →
        (parseRelevanceResponse response n).getD i false = true) ∧
      parseRelevanceResponse "Invalid response format" 3 =
        [true, true, true] ∧
      parseRelevanceResponse "1: relevant\n3: not_relevant" 3 =
        [true, true, false] := by
  have hlen : ∀ (l : List (Nat × Bool)) (acc : List Bool),
      (l.foldl (fun acc iv =>
        if 1 ≤ iv.1 ∧ iv.1 ≤ n then acc.set (iv.1 - 1) iv.2 else acc)
        acc).length = acc.length := by
    intro l
    induction l with
    | nil => intro acc; rfl
    | cons p rest ih =>
      intro acc
      rw [List.foldl_cons, ih]
      split
      · exact List.length_set ..
      · rfl
  refine ⟨?_, ?_, by decide, by decide⟩
  · rw [parseRelevanceResponse, hlen, List.length_replicate]
  · intro i hi hmiss
    rw [parseRelevanceResponse]
    have hskip : ∀ (l : List (Nat × Bool)) (acc : List Bool),
        (∀ p ∈ l, p.1 ≠ i + 1) →
        (l.foldl (fun acc iv =>
          if 1 ≤ iv.1 ∧ iv.1 ≤ n then acc.set (iv.1 - 1) iv.2 else acc)
          acc).getD i false = acc.getD i false := by
      intro l
      induction l with
      | nil => intro acc _; rfl
      | cons p rest ih =>
        intro acc hmiss'
        rw [List.foldl_cons,
          ih _ (fun q hq => hmiss' q (List.mem_cons_of_mem _ hq))]
        split
        · next hrange =>
          have hne : p.1 - 1 ≠ i := by
            have := hmiss' p (List.mem_cons_self _ _)
            omega
          rcases Nat.lt_or_ge i acc.length with hlt | hge
          · rw [List.getD_eq_getElem _ _ (by simpa using hlt),
              List.getD_eq_getElem _ _ hlt]
            simp [List.getElem_set_ne hne]
          · rw [List.getD_eq_default _ _ (by simpa using hge),
              List.getD_eq_default _ _ hge]
        · rfl
    rw [hskip _ _ hmiss]
    rw [List.getD_eq_getElem _ _ (by simpa using hi)]
    simp

/-- C9 witness: a response with no legible verdict lines for two items
keeps both, and the parsed list has the expected length. -/
theorem parseRelevance_fail_open_witness :
    (parseRelevanceResponse "garbage" 2).length = 2 ∧
      (parseRelevanceResponse "garbage" 2).getD 0 false = true := by
  have h := parseRelevance_fail_open "garbage" 2
  exact ⟨h.1, h.2.1 0 (by decide) (by decide)⟩

/-- C10.  Falsy-config fallback at the constructor: `BatchProcessor`
constructed with `batch_size=0`, `max_concurrent=0` or
`delay_seconds=0.0` ignores those values — Python `or` replaces every
falsy explicit argument with the corresponding settings default, exactly
as passing `None` would — so whenever the settings defaults are non-zero
no constructor argument can configure a zero inter-batch delay or zero
concurrency. -/
theorem initBatchProcessor_falsy_fallback (settings : BatchSettings) :
    initBatchProcessor (some 0) (some 0) (some 0) settings =
        initBatchProcessor none none none settings ∧
      (initBatchProcessor (some 0) (some 0) (some 0) settings).batch_size =
        settings.batch_size ∧
      (initBatchProcessor (some 0) (some 0) (some 0) settings).max_concurrent =
        settings.max_concurrent_sources ∧
      (initBatchProcessor (some 0) (some 0) (some 0) settings).delay_seconds =
        settings.batch_delay_seconds ∧
      (∀ (bs mc : Option Nat) (ds : Option ℚ),
        settings.max_concurrent_sources ≠ 0 →
        (initBatchProcessor bs mc ds settings).max_concurrent ≠ 0) ∧
      (∀ (bs mc : Option Nat) (ds : Option ℚ),
        settings.batch_delay_seconds ≠ 0 →
        (initBatchProcessor bs mc ds settings).delay_seconds ≠ 0) := by
  refine ⟨rfl, rfl, rfl, rfl, ?_, ?_⟩
  · intro bs mc ds hne
    show pyOrNat mc settings.max_concurrent_sources ≠ 0
    cases mc with
    | none => exact hne
    | some v =>
      by_cases hv : v = 0
      · subst hv; simpa [pyOrNat] using hne
      · simp [pyOrNat, hv]
  · intro bs mc ds hne
    show pyOrRat ds settings.batch_delay_seconds ≠ 0
    cases ds with
    | none => exact hne
    | some v =>
      by_cases hv : v = 0
      · subst hv; simpa [pyOrRat] using hne
      · simp [pyOrRat, hv]

/-- C10 witness: with the documented defaults (batch size 30, 3 concurrent
sources, 2-second delay), constructing with all-zero arguments lands on
the defaults and a zero concurrency cannot be configured. -/
theorem initBatchProcessor_falsy_fallback_witness :
    (initBatchProcessor (some 0) (some 0) (some 0) ⟨30, 3, 2, 10⟩).max_concurrent
        = 3 ∧
      (initBatchProcessor (some 5) (some 0) (some 0) ⟨30, 3, 2, 10⟩).max_concurrent
        ≠ 0 := by
  have h := initBatchProcessor_falsy_fallback ⟨30, 3, 2, 10⟩
  exact ⟨h.2.2.1, h.2.2.2.2.1 (some 5) (some 0) (some 0) (by decide)⟩

end NewsScraper
